import Mathlib

/-
Verification development for the research-rag repository: a hybrid
retrieval system (BM25 sparse index + dense vector index with score
fusion) with a React frontend.  The repository sources at hand contain
the frontend (Upload, ChatBox, Answer, Home components and the api
service); the backend retrieval engine (text splitter, indices, fusion
ranker, orchestrator) is described by the specification and is modelled
here from the specification text.  Frontend behaviour is embedded
directly from the component sources.

Layout: all definitions first, then the supporting lemmas, then one
theorem per claim.
-/

namespace ResearchRag

namespace Chunker

variable {α : Type}

/-- Modelled from the spec: the backend `text_splitter.py` is not among the
sources at hand.  Spec §4.1 has the window advance by `size − overlap`
tokens; `chunkStep` is that advance.  The floor at 1 only totalizes the
function outside the valid domain `0 ≤ overlap < size`; on the valid
domain it equals `size - overlap`. -/
def chunkStep (size overlap : Nat) : Nat := max (size - overlap) 1

/-- Modelled from the spec: §4.1 window splitting of an already tokenized
text.  The window `tokens[start : start+size]` is emitted for
`start = 0, step, 2·step, …` while `start < length`, so the final chunk may
be shorter than `size` and an empty remainder is never emitted; empty
input produces zero chunks. -/
def split (size overlap : Nat) : List α → List (List α)
  | [] => []
  | t :: ts =>
    (t :: ts).take size :: split size overlap ((t :: ts).drop (chunkStep size overlap))
termination_by ts => ts.length
decreasing_by
  simp only [List.length_drop, List.length_cons]
  have h1 : 1 ≤ chunkStep size overlap := Nat.le_max_right _ _
  omega

/-- Reassembly of a chunk sequence: the first chunk is kept whole and every
later chunk contributes its tokens past the leading `overlap` ones (its
non-overlapping portion). -/
def reassemble (overlap : Nat) : List (List α) → List α
  | [] => []
  | c :: cs => c ++ (cs.map (List.drop overlap)).flatten

end Chunker

namespace Fusion

/-- A per-chunk scored entry as produced by one of the two indices
(§4.2/§4.3): the chunk identifier and that side's raw score.  Scores are
rationals in this embedding. -/
structure ScoredResult where
  chunkId : Nat
  score : ℚ
deriving DecidableEq

/-- Minimum of a list of rationals (0 on the empty list; only ever used on
nonempty lists). -/
def listMin : List ℚ → ℚ
  | [] => 0
  | [x] => x
  | x :: y :: xs => min x (listMin (y :: xs))

/-- Maximum of a list of rationals (0 on the empty list; only ever used on
nonempty lists). -/
def listMax : List ℚ → ℚ
  | [] => 0
  | [x] => x
  | x :: y :: xs => max x (listMax (y :: xs))

/-- Min-max scaling of one raw score within a result set: 1 when the set's
scores are all equal (that includes a single result), otherwise
`(s − min)/(max − min)`. -/
def normVal (rs : List ScoredResult) (s : ℚ) : ℚ :=
  let lo := listMin (rs.map ScoredResult.score)
  let hi := listMax (rs.map ScoredResult.score)
  if hi = lo then 1 else (s - lo) / (hi - lo)

/-- Modelled from the spec: §4.5 min-max normalization of one side's raw
scores within that result set; a side whose scores are all equal
(including a single result) maps every score to 1 to avoid division by
zero. -/
def minMaxNormalize (rs : List ScoredResult) : List ScoredResult :=
  match rs with
  | [] => []
  | r0 :: rest => (r0 :: rest).map (fun r => ⟨r.chunkId, normVal (r0 :: rest) r.score⟩)

/-- Score a result set assigns to a chunk id: the entry's score when the id
is present, 0 when the side is missing the chunk (§4.5: a missing side
contributes 0, not a penalty). -/
def normScoreOf (rs : List ScoredResult) (cid : Nat) : ℚ :=
  match rs.find? (fun r => r.chunkId == cid) with
  | some r => r.score
  | none => 0

/-- The chunk ids of a result list, in ranked order. -/
def resultIds (rs : List ScoredResult) : List Nat := rs.map ScoredResult.chunkId

/-- Modelled from the spec: §4.5 candidate set — every chunk id appearing in
either side (sparse ids first, then the dense-only ids). -/
def candidateIds (sp de : List ScoredResult) : List Nat :=
  resultIds sp ++ (resultIds de).filter (fun c => decide (c ∉ resultIds sp))

/-- Rank (0-based position) of a chunk id within one side's result list,
or the default when the side does not contain the chunk. -/
def rankIn (rs : List ScoredResult) (cid dflt : Nat) : Nat :=
  match rs.findIdx? (fun r => r.chunkId == cid) with
  | some i => i
  | none => dflt

/-- The better (smaller) of the two per-side ranks of a chunk, a missing
side counting as worse than every actual rank. -/
def bestRank (sp de : List ScoredResult) (cid : Nat) : Nat :=
  min (rankIn sp cid (sp.length + de.length)) (rankIn de cid (sp.length + de.length))

/-- Modelled from the spec: §4.5 fused score with internally normalized
weights — `fused = (w1/(w1+w2))·normSparse + (w2/(w1+w2))·normDense`, a
missing side contributing 0. -/
def fusedOf (sp de : List ScoredResult) (w1 w2 : ℚ) (cid : Nat) : ℚ :=
  (w1 / (w1 + w2)) * normScoreOf (minMaxNormalize sp) cid
    + (w2 / (w1 + w2)) * normScoreOf (minMaxNormalize de) cid

/-- Modelled from the spec: §4.5 ordering of the fused ranking — descending
fused score, ties broken by whichever side ranked the chunk higher (the
better of the chunk's two per-side ranks), then by chunk insertion order;
chunk identifiers are assigned sequentially at insertion, so identifier
order stands for insertion order. -/
def precedes (sp de : List ScoredResult) (w1 w2 : ℚ) (a b : Nat) : Prop :=
  fusedOf sp de w1 w2 b < fusedOf sp de w1 w2 a
    ∨ (fusedOf sp de w1 w2 a = fusedOf sp de w1 w2 b
        ∧ (bestRank sp de a < bestRank sp de b
            ∨ (bestRank sp de a = bestRank sp de b ∧ a ≤ b)))

instance precedesDecidable (sp de : List ScoredResult) (w1 w2 : ℚ) :
    DecidableRel (precedes sp de w1 w2) := fun a b => by
  unfold precedes
  infer_instance

instance precedesTotal (sp de : List ScoredResult) (w1 w2 : ℚ) :
    IsTotal Nat (precedes sp de w1 w2) := by
  constructor
  intro a b
  unfold precedes
  rcases lt_trichotomy (fusedOf sp de w1 w2 a) (fusedOf sp de w1 w2 b) with h | h | h
  · exact Or.inr (Or.inl h)
  · rcases lt_trichotomy (bestRank sp de a) (bestRank sp de b) with h2 | h2 | h2
    · exact Or.inl (Or.inr ⟨h, Or.inl h2⟩)
    · rcases Nat.le_total a b with h3 | h3
      · exact Or.inl (Or.inr ⟨h, Or.inr ⟨h2, h3⟩⟩)
      · exact Or.inr (Or.inr ⟨h.symm, Or.inr ⟨h2.symm, h3⟩⟩)
    · exact Or.inr (Or.inr ⟨h.symm, Or.inl h2⟩)
  · exact Or.inl (Or.inl h)

instance precedesTrans (sp de : List ScoredResult) (w1 w2 : ℚ) :
    IsTrans Nat (precedes sp de w1 w2) := by
  constructor
  intro a b c hab hbc
  unfold precedes at hab hbc ⊢
  rcases hab with h1 | ⟨h1, h2⟩ <;> rcases hbc with h3 | ⟨h3, h4⟩
  · exact Or.inl (lt_trans h3 h1)
  · exact Or.inl (h3 ▸ h1)
  · exact Or.inl (h1 ▸ h3)
  · refine Or.inr ⟨h1.trans h3, ?_⟩
    rcases h2 with h2 | ⟨h2, h5⟩ <;> rcases h4 with h4 | ⟨h4, h6⟩ <;> omega

instance precedesAntisymm (sp de : List ScoredResult) (w1 w2 : ℚ) :
    IsAntisymm Nat (precedes sp de w1 w2) := by
  constructor
  intro a b hab hba
  unfold precedes at hab hba
  rcases hab with h1 | ⟨h1, h2⟩
  · rcases hba with h3 | ⟨h3, h4⟩
    · exact absurd (lt_trans h1 h3) (lt_irrefl _)
    · exact absurd h1 (h3 ▸ lt_irrefl _)
  · rcases hba with h3 | ⟨h3, h4⟩
    · exact absurd h3 (h1 ▸ lt_irrefl _)
    · rcases h2 with h2 | ⟨h2, h5⟩ <;> rcases h4 with h4 | ⟨h4, h6⟩ <;> omega

/-- One error kind of the fusion ranker (§7): `InvalidWeights`. -/
inductive FusionError
  | invalidWeights
deriving DecidableEq

instance exceptDecidableEq {ε α : Type} [DecidableEq ε] [DecidableEq α] :
    DecidableEq (Except ε α) := fun a b =>
  match a, b with
  | .error e1, .error e2 =>
    if h : e1 = e2 then .isTrue (by rw [h]) else .isFalse (by intro hc; cases hc; exact h rfl)
  | .error _, .ok _ => .isFalse (by intro hc; cases hc)
  | .ok _, .error _ => .isFalse (by intro hc; cases hc)
  | .ok v1, .ok v2 =>
    if h : v1 = v2 then .isTrue (by rw [h]) else .isFalse (by intro hc; cases hc; exact h rfl)

/-- One entry of a RetrievalResult (§3): chunk reference, fused score, and
the contributing (normalized) sparse and dense scores. -/
structure FusedResult where
  chunkId : Nat
  fused : ℚ
  sparseContrib : ℚ
  denseContrib : ℚ
deriving DecidableEq

/-- Modelled from the spec: §4.5 ranked chunk-id order of the fused list —
every chunk id appearing on either side, sorted by `precedes`. -/
def mergeIds (sp de : List ScoredResult) (w1 w2 : ℚ) : List Nat :=
  List.insertionSort (precedes sp de w1 w2) (candidateIds sp de)

/-- Modelled from the spec: §4.5 `FusionRanker.merge` — fails with
`InvalidWeights` unless both weights are ≥ 0 and at least one is positive;
otherwise min-max normalizes each side, fuses with internally normalized
weights, sorts descending by fused score with the §4.5 tie-breaks and
truncates to `k`. -/
def merge (sp de : List ScoredResult) (w1 w2 : ℚ) (k : Nat) :
    Except FusionError (List FusedResult) :=
  if w1 < 0 ∨ w2 < 0 ∨ (w1 = 0 ∧ w2 = 0) then .error .invalidWeights
  else .ok (((mergeIds sp de w1 w2).take k).map (fun cid =>
    ⟨cid, fusedOf sp de w1 w2 cid,
      normScoreOf (minMaxNormalize sp) cid, normScoreOf (minMaxNormalize de) cid⟩))

end Fusion

namespace Engine

/-- Modelled from the spec: §3 Chunk record — identifier, owning document,
source filename, page number and raw text (the ordinal position and token
count are not needed by the claims settled here).  Chunk identifiers are
assigned sequentially at ingestion, so identifier order stands for
insertion order. -/
structure Chunk where
  id : Nat
  docId : Nat
  sourceFile : String
  pageNumber : Nat
  text : String
deriving DecidableEq

/-- Modelled from the spec: §3 Document record (the fields the dashboard's
documents listing reads). -/
structure DocumentRec where
  id : Nat
  filename : String
  totalPages : Nat
deriving DecidableEq

/-- Modelled from the spec: §2 engine state — the chunk store in insertion
order, the document store, and the SessionRegistry mapping a session id to
the chunk ids uploaded in that session.  By the §3 invariant the sparse and
dense indices hold entries for exactly the chunk-id set of `chunks`, so the
chunk store stands for both indices' membership. -/
structure EngineState where
  chunks : List Chunk
  documents : List DocumentRec
  sessions : List (String × List Nat)
deriving DecidableEq

/-- The empty corpus. -/
def emptyState : EngineState := ⟨[], [], []⟩

/-- Modelled from the spec: the corpus clear behind DELETE /clear (invoked
by `handleClearData` via `clearAllData` in the frontend api service) —
empties every index and registry. -/
def clearAllData (_s : EngineState) : EngineState := emptyState

/-- Modelled from the spec: §4.4 `chunkIdsFor` — the chunk-id set registered
for a session, `none` when the session id was never registered
(`UnknownSession`). -/
def chunkIdsFor (s : EngineState) (sid : String) : Option (List Nat) :=
  s.sessions.lookup sid

/-- The documents count reported to the dashboard (its `total_documents`
statistic and documents listing length). -/
def documentsCount (s : EngineState) : Nat := s.documents.length

/-- Ranking order of a single index's results (§4.2/§4.3): descending
score, ties broken by chunk insertion order, i.e. identifier order. -/
def resultOrder (a b : Fusion.ScoredResult) : Prop :=
  b.score < a.score ∨ (a.score = b.score ∧ a.chunkId ≤ b.chunkId)

instance resultOrderDecidable : DecidableRel resultOrder := fun a b => by
  unfold resultOrder
  infer_instance

/-- Modelled from the spec: §4.2/§4.3 index search with optional candidate
restriction.  Per-chunk scoring is abstracted into the `score` parameter —
the spec's BM25 and cosine formulas are real-valued (`ln`), and every claim
settled through this definition depends only on the candidate filtering and
ranking plumbing, which follow the spec exactly: restrict to the candidate
set when one is supplied (statistics stay corpus-wide, filtering is
post-hoc), sort descending with ties by insertion order, truncate to `k`. -/
def searchIndex (st : EngineState) (score : Chunk → ℚ)
    (cands : Option (List Nat)) (k : Nat) : List Fusion.ScoredResult :=
  let pool := match cands with
    | none => st.chunks
    | some cs => st.chunks.filter (fun c => decide (c.id ∈ cs))
  (List.insertionSort resultOrder (pool.map (fun c => ⟨c.id, score c⟩))).take k

/-- §4.6 search scope. -/
inductive SearchScope
  | global
  | session
deriving DecidableEq

/-- §7 error kinds surfaced on the query path. -/
inductive QueryError
  | missingSessionId
  | unknownSession
  | invalidWeights
deriving DecidableEq

/-- The /ask request fields the engine consumes (the question text and
question vector are abstracted into the two scoring functions passed to
`query`). -/
structure QueryRequest where
  topK : Nat
  bm25Weight : ℚ
  embeddingWeight : ℚ
  searchScope : SearchScope
  sessionId : Option String
deriving DecidableEq

/-- §9 validated query-options structure. -/
structure QueryOptions where
  topK : Nat
  bm25Weight : ℚ
  embeddingWeight : ℚ
  searchScope : SearchScope
  sessionId : Option String
deriving DecidableEq

/-- Modelled from the spec: §9 query-options construction — rejects
`scope=session` without `sessionId` and invalid weight pairs at
construction, before the search path runs. -/
def mkQueryOptions (req : QueryRequest) : Except QueryError QueryOptions :=
  if req.searchScope = SearchScope.session ∧ req.sessionId = none then
    .error .missingSessionId
  else if req.bm25Weight < 0 ∨ req.embeddingWeight < 0 ∨
      (req.bm25Weight = 0 ∧ req.embeddingWeight = 0) then
    .error .invalidWeights
  else
    .ok ⟨req.topK, req.bm25Weight, req.embeddingWeight, req.searchScope, req.sessionId⟩

/-- Modelled from the spec: §4.6 candidate resolution — `global` passes no
restriction; `session` resolves the session's chunk ids via the
SessionRegistry, failing with `UnknownSession` when the id was never
registered (distinct from a registered-but-empty session). -/
def resolveCandidates (st : EngineState) (opts : QueryOptions) :
    Except QueryError (Option (List Nat)) :=
  match opts.searchScope with
  | .global => .ok none
  | .session =>
    match opts.sessionId with
    | none => .error .missingSessionId
    | some sid =>
      match chunkIdsFor st sid with
      | none => .error .unknownSession
      | some cs => .ok (some cs)

/-- Which index a query run touched; error paths are shown to access no
index. -/
inductive IndexAccess
  | sparse
  | dense
deriving DecidableEq

/-- §3 Citation, with the field names the frontend Answer component reads
(`source.source_file`, `source.page_number`, `source.chunk_text`,
`source.relevance_score`). -/
structure Citation where
  source_file : String
  page_number : Nat
  chunk_text : String
  relevance_score : ℚ
deriving DecidableEq

/-- Chunk lookup by identifier. -/
def findChunk (st : EngineState) (cid : Nat) : Option Chunk :=
  st.chunks.find? (fun c => c.id == cid)

/-- Modelled from the spec: §4.6 citation assembly — for each surviving
chunk id in fused rank order, resolve the Chunk record to build a Citation
carrying the chunk's source filename, page number, verbatim text and the
fused score as relevance. -/
def mkCitations (st : EngineState) (rs : List Fusion.FusedResult) : List Citation :=
  rs.filterMap (fun r => (findChunk st r.chunkId).map
    (fun c => ⟨c.sourceFile, c.pageNumber, c.text, r.fused⟩))

/-- §3 RetrievalResult together with its assembled citations. -/
structure QueryResponse where
  results : List Fusion.FusedResult
  citations : List Citation
deriving DecidableEq

/-- Modelled from the spec: §4.6 `RetrievalOrchestrator.query` — validate
the options, resolve session candidates, run both index searches under that
restriction, fuse with the requested weights, and assemble citations.  The
returned `IndexAccess` list records which indices were touched. -/
def query (st : EngineState) (sparseScore denseScore : Chunk → ℚ)
    (req : QueryRequest) : Except QueryError QueryResponse × List IndexAccess :=
  match mkQueryOptions req with
  | .error e => (.error e, [])
  | .ok opts =>
    match resolveCandidates st opts with
    | .error e => (.error e, [])
    | .ok cands =>
      let sp := searchIndex st sparseScore cands opts.topK
      let de := searchIndex st denseScore cands opts.topK
      match Fusion.merge sp de opts.bm25Weight opts.embeddingWeight opts.topK with
      | .error _ => (.error .invalidWeights, [.sparse, .dense])
      | .ok fused => (.ok ⟨fused, mkCitations st fused⟩, [.sparse, .dense])

end Engine

namespace Frontend

/-- A file as the Upload component sees it: name and MIME type. -/
structure FileItem where
  name : String
  mimeType : String
deriving DecidableEq

/-- The PDF check `file.type === 'application/pdf'` used by
`handleFileSelect` and `handleDrop` in Upload.js. -/
def isPdf (f : FileItem) : Bool := f.mimeType == "application/pdf"

/-- The Upload component state driving the upload flow: the selected
`files` and the transient `uploadStatus` message. -/
structure UploadState where
  files : List FileItem
  uploadStatus : String
deriving DecidableEq

/-- Upload.js `handleFileSelect`: keeps exactly the PDF files of the
selection and posts the transient warning when anything was filtered
out. -/
def handleFileSelect (selected : List FileItem) (st : UploadState) : UploadState :=
  let pdfFiles := selected.filter isPdf
  { files := pdfFiles,
    uploadStatus :=
      if pdfFiles.length ≠ selected.length then "Only PDF files are allowed"
      else st.uploadStatus }

/-- Upload.js `handleDrop`: the same filtering over the dropped files. -/
def handleDrop (dropped : List FileItem) (st : UploadState) : UploadState :=
  let pdfFiles := dropped.filter isPdf
  { files := pdfFiles,
    uploadStatus :=
      if pdfFiles.length ≠ dropped.length then "Only PDF files are allowed"
      else st.uploadStatus }

/-- Upload.js `handleUpload` together with api.js `uploadPDFs`: with no
files selected no request is sent; otherwise the upload request's form
data carries exactly the component's `files` list. -/
def handleUpload (st : UploadState) : Option (List FileItem) × UploadState :=
  if st.files.isEmpty then
    (none, { st with uploadStatus := "Please select files to upload" })
  else
    (some st.files, { st with uploadStatus := "Uploading and processing files..." })

/-- JS `String.prototype.trim()` as the ChatBox uses it: removes leading and
trailing whitespace.  Stated over the string's character list (equivalent to
`String.trim`) so that concrete instances evaluate. -/
def trim (s : String) : String :=
  ⟨((s.data.dropWhile Char.isWhitespace).reverse.dropWhile Char.isWhitespace).reverse⟩

/-- The session object the ChatBox receives as `currentSession`. -/
structure SessionInfo where
  session_id : String
  uploaded_files : List String
deriving DecidableEq

/-- The POST /ask request body built by `handleSubmit` in Chatbox.js. -/
structure AskRequest where
  question : String
  top_k : Nat
  bm25_weight : ℚ
  embedding_weight : ℚ
  search_scope : String
  session_id : Option String
deriving DecidableEq

/-- The ChatBox local state: the `question` text and the `error` message. -/
structure ChatBoxState where
  question : String
  error : String
deriving DecidableEq

/-- The App-level state the submit flow can eventually affect through
`onNewAnswer`: the chat history entries and the current answer. -/
structure AppState where
  chatHistory : List (String × String)
  currentAnswer : Option String
deriving DecidableEq

/-- Chatbox.js `handleSubmit` (the session-scoped ChatBox): guards first —
empty trimmed question, then no documents — setting the local error and
sending nothing; otherwise clears the error and builds the /ask request
with `top_k = 5`, weights 0.5/0.5, `search_scope = "session"` and
`session_id = currentSession?.session_id || null` (a missing session, and
an empty-string session id, which is falsy, both become null). -/
def handleSubmit (st : ChatBoxState) (app : AppState) (hasDocuments : Bool)
    (currentSession : Option SessionInfo) :
    ChatBoxState × AppState × Option AskRequest :=
  if trim st.question = "" then
    ({ st with error := "Please enter a question" }, app, none)
  else if !hasDocuments then
    ({ st with error := "Please upload some PDF documents first" }, app, none)
  else
    ({ st with error := "" }, app, some
      { question := trim st.question
        top_k := 5
        bm25_weight := 1/2
        embedding_weight := 1/2
        search_scope := "session"
        session_id :=
          match currentSession with
          | none => none
          | some s => if s.session_id = "" then none else some s.session_id })

/-- The POST /ask request body built by the ChatBox variant without session
scoping (the other Chatbox source). -/
structure AskRequestGlobal where
  question : String
  top_k : Nat
  bm25_weight : ℚ
  embedding_weight : ℚ
deriving DecidableEq

/-- `handleSubmit` of the ChatBox variant without session scoping: the same
two guards, then the /ask request without scope fields. -/
def handleSubmitGlobal (st : ChatBoxState) (app : AppState) (hasDocuments : Bool) :
    ChatBoxState × AppState × Option AskRequestGlobal :=
  if trim st.question = "" then
    ({ st with error := "Please enter a question" }, app, none)
  else if !hasDocuments then
    ({ st with error := "Please upload some PDF documents first" }, app, none)
  else
    ({ st with error := "" }, app, some
      { question := trim st.question
        top_k := 5
        bm25_weight := 1/2
        embedding_weight := 1/2 })

end Frontend

namespace Chunker

variable {α : Type}

lemma split_cons (size overlap : Nat) (t : α) (ts : List α) :
    split size overlap (t :: ts) =
      (t :: ts).take size :: split size overlap ((t :: ts).drop (chunkStep size overlap)) := by
  rw [split]

lemma chunkStep_eq {size overlap : Nat} (hov : overlap < size) :
    chunkStep size overlap = size - overlap := by
  unfold chunkStep; omega

lemma drop_take_append_drop {n m : Nat} (h : n ≤ m) (l : List α) :
    (l.take m).drop n ++ l.drop m = l.drop n := by
  conv_rhs => rw [← List.take_append_drop m l]
  rw [List.drop_append_eq_append_drop]
  rcases le_or_lt n (l.take m).length with h2 | h2
  · have h3 : n - (l.take m).length = 0 := by omega
    rw [h3, List.drop_zero]
  · have hl : l.length < n := by
      rw [List.length_take] at h2; omega
    have h4 : l.drop m = [] := List.drop_eq_nil_of_le (by omega)
    simp [h4]

lemma flatten_map_drop_split {size overlap : Nat} (hov : overlap < size) :
    ∀ (n : Nat) (ts : List α), ts.length ≤ n →
      ((split size overlap ts).map (List.drop overlap)).flatten = ts.drop overlap := by
  intro n
  induction n with
  | zero =>
    intro ts h
    have h0 : ts = [] := List.eq_nil_of_length_eq_zero (by omega)
    subst h0
    simp [split]
  | succ n ih =>
    intro ts h
    match ts with
    | [] => simp [split]
    | t :: ts0 =>
      rw [split_cons, chunkStep_eq hov]
      simp only [List.map_cons, List.flatten_cons]
      rw [ih (((t :: ts0)).drop (size - overlap))
        (by simp only [List.length_drop, List.length_cons]
            simp only [List.length_cons] at h
            omega)]
      rw [List.drop_drop]
      have hso : size - overlap + overlap = size := by omega
      rw [hso]
      exact drop_take_append_drop (le_of_lt hov) _

lemma reassemble_split {size overlap : Nat} (hov : overlap < size) (ts : List α) :
    reassemble overlap (split size overlap ts) = ts := by
  match ts with
  | [] => simp [split, reassemble]
  | t :: ts0 =>
    rw [split_cons, reassemble]
    rw [flatten_map_drop_split hov ((t :: ts0).drop (chunkStep size overlap)).length _ le_rfl]
    rw [chunkStep_eq hov, List.drop_drop]
    have hso : size - overlap + overlap = size := by omega
    rw [hso]
    exact List.take_append_drop _ _

lemma split_get_window {size overlap : Nat} (hov : overlap < size) :
    ∀ (n : Nat) (ts : List α), ts.length ≤ n →
      ∀ i : Nat, i < (split size overlap ts).length →
        (split size overlap ts)[i]? =
          some ((ts.drop (i * (size - overlap))).take size) := by
  intro n
  induction n with
  | zero =>
    intro ts h i hi
    have h0 : ts = [] := List.eq_nil_of_length_eq_zero (by omega)
    subst h0
    simp [split] at hi
  | succ n ih =>
    intro ts h i hi
    match ts with
    | [] => simp [split] at hi
    | t :: ts0 =>
      rw [split_cons] at hi ⊢
      match i with
      | 0 => simp
      | i + 1 =>
        simp only [List.length_cons, Nat.add_lt_add_iff_right] at hi
        simp only [List.getElem?_cons_succ]
        rw [ih ((t :: ts0).drop (chunkStep size overlap))
          (by simp only [List.length_drop, List.length_cons]
              simp only [List.length_cons] at h
              have h1 : 1 ≤ chunkStep size overlap := Nat.le_max_right _ _
              omega) i hi]
        rw [chunkStep_eq hov, List.drop_drop]
        congr 3
        ring

lemma split_chunk_ne_nil {size overlap : Nat} (hov : overlap < size) :
    ∀ (n : Nat) (ts : List α), ts.length ≤ n →
      ∀ c ∈ split size overlap ts, c ≠ [] := by
  intro n
  induction n with
  | zero =>
    intro ts h c hc
    have h0 : ts = [] := List.eq_nil_of_length_eq_zero (by omega)
    subst h0
    simp [split] at hc
  | succ n ih =>
    intro ts h c hc
    match ts with
    | [] => simp [split] at hc
    | t :: ts0 =>
      rw [split_cons] at hc
      rcases List.mem_cons.mp hc with h1 | h1
      · subst h1
        obtain ⟨m, hm⟩ := Nat.exists_eq_succ_of_ne_zero (show size ≠ 0 by omega)
        rw [hm, List.take_succ_cons]
        exact List.cons_ne_nil _ _
      · exact ih ((t :: ts0).drop (chunkStep size overlap))
          (by simp only [List.length_drop, List.length_cons]
              simp only [List.length_cons] at h
              have h2 : 1 ≤ chunkStep size overlap := Nat.le_max_right _ _
              omega) c h1

end Chunker

namespace Fusion

lemma listMin_le {xs : List ℚ} {x : ℚ} (hx : x ∈ xs) : listMin xs ≤ x := by
  induction xs with
  | nil => simp at hx
  | cons a as ih =>
    match as with
    | [] =>
      rw [List.mem_singleton] at hx
      subst hx
      exact le_refl _
    | b :: bs =>
      rw [listMin]
      rcases List.mem_cons.mp hx with h | h
      · subst h; exact min_le_left _ _
      · exact le_trans (min_le_right _ _) (ih h)

lemma le_listMax {xs : List ℚ} {x : ℚ} (hx : x ∈ xs) : x ≤ listMax xs := by
  induction xs with
  | nil => simp at hx
  | cons a as ih =>
    match as with
    | [] =>
      rw [List.mem_singleton] at hx
      subst hx
      exact le_refl _
    | b :: bs =>
      rw [listMax]
      rcases List.mem_cons.mp hx with h | h
      · subst h; exact le_max_left _ _
      · exact le_trans (ih h) (le_max_right _ _)

lemma normVal_bounds {rs : List ScoredResult} {s : ℚ}
    (hs : s ∈ rs.map ScoredResult.score) : 0 ≤ normVal rs s ∧ normVal rs s ≤ 1 := by
  unfold normVal
  by_cases h : listMax (rs.map ScoredResult.score) = listMin (rs.map ScoredResult.score)
  · rw [if_pos h]; norm_num
  · rw [if_neg h]
    have h1 := listMin_le hs
    have h2 := le_listMax hs
    have h3 : 0 < listMax (rs.map ScoredResult.score) - listMin (rs.map ScoredResult.score) := by
      have h4 : listMin (rs.map ScoredResult.score) ≤ listMax (rs.map ScoredResult.score) :=
        le_trans h1 h2
      rcases lt_or_eq_of_le h4 with h5 | h5
      · linarith
      · exact absurd h5.symm h
    constructor
    · exact div_nonneg (by linarith) (by linarith)
    · rw [div_le_one h3]; linarith

lemma minMaxNormalize_mem_bounds {rs : List ScoredResult} {r : ScoredResult}
    (hr : r ∈ minMaxNormalize rs) : 0 ≤ r.score ∧ r.score ≤ 1 := by
  match rs with
  | [] => simp [minMaxNormalize] at hr
  | r0 :: rest =>
    rw [minMaxNormalize] at hr
    obtain ⟨a, ha, rfl⟩ := List.mem_map.mp hr
    exact normVal_bounds (List.mem_map_of_mem ScoredResult.score ha)

lemma normScoreOf_bounds (rs : List ScoredResult) (cid : Nat) :
    0 ≤ normScoreOf (minMaxNormalize rs) cid ∧ normScoreOf (minMaxNormalize rs) cid ≤ 1 := by
  unfold normScoreOf
  cases hf : (minMaxNormalize rs).find? (fun r => r.chunkId == cid) with
  | none => norm_num
  | some r => exact minMaxNormalize_mem_bounds (List.mem_of_find?_eq_some hf)

lemma weight_sum_pos {w1 w2 : ℚ} (hw1 : 0 ≤ w1) (hw2 : 0 ≤ w2)
    (hne : ¬(w1 = 0 ∧ w2 = 0)) : 0 < w1 + w2 := by
  rcases lt_or_eq_of_le hw1 with h | h
  · linarith
  · rcases lt_or_eq_of_le hw2 with h2 | h2
    · linarith
    · exact absurd ⟨h.symm, h2.symm⟩ hne

lemma fusedOf_bounds {w1 w2 : ℚ} (hw1 : 0 ≤ w1) (hw2 : 0 ≤ w2)
    (hne : ¬(w1 = 0 ∧ w2 = 0)) (sp de : List ScoredResult) (cid : Nat) :
    0 ≤ fusedOf sp de w1 w2 cid ∧ fusedOf sp de w1 w2 cid ≤ 1 := by
  have hsum : 0 < w1 + w2 := weight_sum_pos hw1 hw2 hne
  obtain ⟨hs0, hs1⟩ := normScoreOf_bounds sp cid
  obtain ⟨hd0, hd1⟩ := normScoreOf_bounds de cid
  have hq1 : 0 ≤ w1 / (w1 + w2) := div_nonneg hw1 hsum.le
  have hq2 : 0 ≤ w2 / (w1 + w2) := div_nonneg hw2 hsum.le
  unfold fusedOf
  constructor
  · have := mul_nonneg hq1 hs0
    have := mul_nonneg hq2 hd0
    linarith
  · have h1 : (w1 / (w1 + w2)) * normScoreOf (minMaxNormalize sp) cid ≤ w1 / (w1 + w2) := by
      nlinarith
    have h2 : (w2 / (w1 + w2)) * normScoreOf (minMaxNormalize de) cid ≤ w2 / (w1 + w2) := by
      nlinarith
    have h3 : w1 / (w1 + w2) + w2 / (w1 + w2) = 1 := by
      field_simp
    linarith

lemma merge_ok_inv {sp de : List ScoredResult} {w1 w2 : ℚ} {k : Nat} {res : List FusedResult}
    (h : merge sp de w1 w2 k = .ok res) :
    (0 ≤ w1 ∧ 0 ≤ w2 ∧ ¬(w1 = 0 ∧ w2 = 0)) ∧
      res = ((mergeIds sp de w1 w2).take k).map (fun cid =>
        ⟨cid, fusedOf sp de w1 w2 cid,
          normScoreOf (minMaxNormalize sp) cid, normScoreOf (minMaxNormalize de) cid⟩) := by
  by_cases hc : (w1 < 0 ∨ w2 < 0 ∨ (w1 = 0 ∧ w2 = 0))
  · rw [merge, if_pos hc] at h
    exact Except.noConfusion h
  · rw [merge, if_neg hc] at h
    have h1 : 0 ≤ w1 := not_lt.mp (fun hl => hc (Or.inl hl))
    have h2 : 0 ≤ w2 := not_lt.mp (fun hl => hc (Or.inr (Or.inl hl)))
    have h3 : ¬(w1 = 0 ∧ w2 = 0) := fun hl => hc (Or.inr (Or.inr hl))
    exact ⟨⟨h1, h2, h3⟩, (Except.ok.inj h).symm⟩

lemma mem_mergeIds {sp de : List ScoredResult} {w1 w2 : ℚ} {c : Nat} :
    c ∈ mergeIds sp de w1 w2 ↔ (c ∈ resultIds sp ∨ c ∈ resultIds de) := by
  unfold mergeIds
  rw [(List.perm_insertionSort _ _).mem_iff]
  unfold candidateIds
  simp only [List.mem_append, List.mem_filter, decide_eq_true_iff]
  constructor
  · rintro (h | ⟨h, -⟩)
    · exact Or.inl h
    · exact Or.inr h
  · rintro (h | h)
    · exact Or.inl h
    · by_cases hs : c ∈ resultIds sp
      · exact Or.inl hs
      · exact Or.inr ⟨h, hs⟩

lemma merge_ok_mem_ids {sp de : List ScoredResult} {w1 w2 : ℚ} {k : Nat}
    {res : List FusedResult} {r : FusedResult}
    (h : merge sp de w1 w2 k = .ok res) (hr : r ∈ res) :
    r.chunkId ∈ resultIds sp ∨ r.chunkId ∈ resultIds de := by
  obtain ⟨-, rfl⟩ := merge_ok_inv h
  obtain ⟨cid, hcid, rfl⟩ := List.mem_map.mp hr
  exact mem_mergeIds.mp ((List.take_sublist _ _).subset hcid)

lemma precedes_fused_ge {sp de : List ScoredResult} {w1 w2 : ℚ} {a b : Nat}
    (h : precedes sp de w1 w2 a b) : fusedOf sp de w1 w2 b ≤ fusedOf sp de w1 w2 a := by
  rcases h with h | ⟨h, -⟩
  · exact le_of_lt h
  · exact le_of_eq h.symm

lemma merge_ok_sorted {sp de : List ScoredResult} {w1 w2 : ℚ} {k : Nat}
    {res : List FusedResult} (h : merge sp de w1 w2 k = .ok res) :
    res.Pairwise (fun a b => b.fused ≤ a.fused) := by
  obtain ⟨-, rfl⟩ := merge_ok_inv h
  rw [List.pairwise_map]
  have hs : List.Sorted (precedes sp de w1 w2) (mergeIds sp de w1 w2) :=
    List.sorted_insertionSort _ _
  have ht : ((mergeIds sp de w1 w2).take k).Pairwise (precedes sp de w1 w2) :=
    List.Pairwise.sublist (List.take_sublist _ _) hs
  exact ht.imp (fun hab => precedes_fused_ge hab)

lemma merge_ok_bounds {sp de : List ScoredResult} {w1 w2 : ℚ} {k : Nat}
    {res : List FusedResult} {r : FusedResult}
    (h : merge sp de w1 w2 k = .ok res) (hr : r ∈ res) :
    0 ≤ r.fused ∧ r.fused ≤ 1 := by
  obtain ⟨⟨h1, h2, h3⟩, rfl⟩ := merge_ok_inv h
  obtain ⟨cid, -, rfl⟩ := List.mem_map.mp hr
  exact fusedOf_bounds h1 h2 h3 sp de cid

lemma resultIds_cons (b : ScoredResult) (bs : List ScoredResult) :
    resultIds (b :: bs) = b.chunkId :: resultIds bs := rfl

lemma find?_map_of_nodup {sp : List ScoredResult} {f : ScoredResult → ScoredResult}
    (hf : ∀ r, (f r).chunkId = r.chunkId) (hnd : (resultIds sp).Nodup)
    {a : ScoredResult} (ha : a ∈ sp) :
    (sp.map f).find? (fun r => r.chunkId == a.chunkId) = some (f a) := by
  induction sp with
  | nil => simp at ha
  | cons b bs ih =>
    rw [resultIds_cons, List.nodup_cons] at hnd
    rw [List.map_cons]
    rcases List.mem_cons.mp ha with rfl | ha2
    · rw [List.find?_cons_of_pos]
      simp [hf]
    · have hbne : b.chunkId ≠ a.chunkId := by
        intro he
        exact hnd.1 (by rw [he]; exact List.mem_map_of_mem ScoredResult.chunkId ha2)
      rw [List.find?_cons_of_neg]
      · exact ih hnd.2 ha2
      · simp [hf, hbne]

lemma normScoreOf_eq_normVal {sp : List ScoredResult}
    (hnd : (resultIds sp).Nodup) {a : ScoredResult} (ha : a ∈ sp) :
    normScoreOf (minMaxNormalize sp) a.chunkId = normVal sp a.score := by
  match sp with
  | [] => simp at ha
  | r0 :: rest =>
    unfold normScoreOf
    rw [minMaxNormalize]
    rw [@find?_map_of_nodup (r0 :: rest)
      (fun r => ⟨r.chunkId, normVal (r0 :: rest) r.score⟩) (fun r => rfl) hnd a ha]

lemma fusedOf_one_zero (sp de : List ScoredResult) (cid : Nat) :
    fusedOf sp de 1 0 cid = normScoreOf (minMaxNormalize sp) cid := by
  unfold fusedOf; norm_num

lemma fusedOf_zero_one (sp de : List ScoredResult) (cid : Nat) :
    fusedOf sp de 0 1 cid = normScoreOf (minMaxNormalize de) cid := by
  unfold fusedOf; norm_num

lemma normVal_strict_mono {rs : List ScoredResult} {sa sb : ℚ}
    (ha : sa ∈ rs.map ScoredResult.score) (hb : sb ∈ rs.map ScoredResult.score)
    (hlt : sb < sa) : normVal rs sb < normVal rs sa := by
  have h1 := listMin_le hb
  have h2 := le_listMax ha
  have h3 := listMin_le ha
  have h4 := le_listMax hb
  have hne : listMax (rs.map ScoredResult.score) ≠ listMin (rs.map ScoredResult.score) := by
    intro he
    rw [he] at h2
    linarith
  simp only [normVal, if_neg hne]
  have hpos : 0 < listMax (rs.map ScoredResult.score) - listMin (rs.map ScoredResult.score) := by
    have h5 : listMin (rs.map ScoredResult.score) ≤ listMax (rs.map ScoredResult.score) :=
      le_trans h1 h4
    rcases lt_or_eq_of_le h5 with h6 | h6
    · linarith
    · exact absurd h6.symm hne
  rw [div_lt_div_iff_of_pos_right hpos]
  linarith

lemma pairwise_precedes_sparse {sp : List ScoredResult} (de : List ScoredResult)
    (hnd : (resultIds sp).Nodup)
    (hstrict : sp.Pairwise (fun a b => b.score < a.score)) :
    (resultIds sp).Pairwise (precedes sp de 1 0) := by
  unfold resultIds
  rw [List.pairwise_map]
  refine List.Pairwise.imp_of_mem ?_ hstrict
  intro a b ha hb hab
  left
  rw [fusedOf_one_zero, fusedOf_one_zero]
  rw [normScoreOf_eq_normVal hnd ha, normScoreOf_eq_normVal hnd hb]
  exact normVal_strict_mono (List.mem_map_of_mem _ ha) (List.mem_map_of_mem _ hb) hab

lemma pairwise_precedes_dense (sp : List ScoredResult) {de : List ScoredResult}
    (hnd : (resultIds de).Nodup)
    (hstrict : de.Pairwise (fun a b => b.score < a.score)) :
    (resultIds de).Pairwise (precedes sp de 0 1) := by
  unfold resultIds
  rw [List.pairwise_map]
  refine List.Pairwise.imp_of_mem ?_ hstrict
  intro a b ha hb hab
  left
  rw [fusedOf_zero_one, fusedOf_zero_one]
  rw [normScoreOf_eq_normVal hnd ha, normScoreOf_eq_normVal hnd hb]
  exact normVal_strict_mono (List.mem_map_of_mem _ ha) (List.mem_map_of_mem _ hb) hab

lemma filter_candidates_sparse (sp de : List ScoredResult) :
    (candidateIds sp de).filter (fun c => decide (c ∈ resultIds sp)) = resultIds sp := by
  unfold candidateIds
  rw [List.filter_append]
  have h1 : (resultIds sp).filter (fun c => decide (c ∈ resultIds sp)) = resultIds sp :=
    List.filter_eq_self.mpr (fun a ha => decide_eq_true ha)
  have h2 : ((resultIds de).filter (fun c => decide (c ∉ resultIds sp))).filter
      (fun c => decide (c ∈ resultIds sp)) = [] := by
    rw [List.filter_eq_nil_iff]
    intro a ha
    rw [List.mem_filter] at ha
    simp only [decide_eq_true_iff] at ha ⊢
    exact ha.2
  rw [h1, h2, List.append_nil]

lemma filter_candidates_dense {sp de : List ScoredResult}
    (hspNd : (resultIds sp).Nodup) (hdeNd : (resultIds de).Nodup) :
    ((candidateIds sp de).filter (fun c => decide (c ∈ resultIds de))).Perm (resultIds de) := by
  unfold candidateIds
  rw [List.filter_append]
  have h2 : ((resultIds de).filter (fun c => decide (c ∉ resultIds sp))).filter
      (fun c => decide (c ∈ resultIds de)) =
      (resultIds de).filter (fun c => decide (c ∉ resultIds sp)) := by
    apply List.filter_eq_self.mpr
    intro a ha
    rw [List.mem_filter] at ha
    exact decide_eq_true ha.1
  rw [h2]
  have hnd1 : ((resultIds sp).filter (fun c => decide (c ∈ resultIds de)) ++
      (resultIds de).filter (fun c => decide (c ∉ resultIds sp))).Nodup := by
    refine List.Nodup.append (hspNd.filter _) (hdeNd.filter _) ?_
    intro a ha hb
    rw [List.mem_filter] at ha hb
    simp only [decide_eq_true_iff] at ha hb
    exact hb.2 ha.1
  refine (List.perm_ext_iff_of_nodup hnd1 hdeNd).mpr ?_
  intro a
  simp only [List.mem_append, List.mem_filter, decide_eq_true_iff]
  constructor
  · rintro (⟨-, h⟩ | ⟨h, -⟩) <;> exact h
  · intro h
    by_cases hs : a ∈ resultIds sp
    · exact Or.inl ⟨hs, h⟩
    · exact Or.inr ⟨h, hs⟩

lemma mergeIds_take_all {sp de : List ScoredResult} {w1 w2 : ℚ} {k : Nat}
    (hk : (candidateIds sp de).length ≤ k) :
    (mergeIds sp de w1 w2).take k = mergeIds sp de w1 w2 := by
  apply List.take_of_length_le
  rw [mergeIds, List.length_insertionSort]
  exact hk

lemma merge_pure_sparse_order {sp de : List ScoredResult} {k : Nat} {res : List FusedResult}
    (hspNd : (resultIds sp).Nodup)
    (hstrict : sp.Pairwise (fun a b => b.score < a.score))
    (hk : (candidateIds sp de).length ≤ k)
    (h : merge sp de 1 0 k = .ok res) :
    (res.map FusedResult.chunkId).filter (fun c => decide (c ∈ resultIds sp)) = resultIds sp := by
  obtain ⟨-, rfl⟩ := merge_ok_inv h
  rw [mergeIds_take_all hk, List.map_map]
  have hid : (FusedResult.chunkId ∘ fun cid =>
      (⟨cid, fusedOf sp de 1 0 cid, normScoreOf (minMaxNormalize sp) cid,
        normScoreOf (minMaxNormalize de) cid⟩ : FusedResult)) = id := rfl
  rw [hid, List.map_id]
  have hsorted : List.Sorted (precedes sp de 1 0) (mergeIds sp de 1 0) :=
    List.sorted_insertionSort _ _
  have hfsorted : List.Sorted (precedes sp de 1 0)
      ((mergeIds sp de 1 0).filter (fun c => decide (c ∈ resultIds sp))) :=
    List.Pairwise.sublist (List.filter_sublist _) hsorted
  have hperm : ((mergeIds sp de 1 0).filter (fun c => decide (c ∈ resultIds sp))).Perm
      ((candidateIds sp de).filter (fun c => decide (c ∈ resultIds sp))) :=
    (List.perm_insertionSort _ _).filter _
  rw [filter_candidates_sparse sp de] at hperm
  exact List.eq_of_perm_of_sorted hperm hfsorted (pairwise_precedes_sparse de hspNd hstrict)

lemma merge_pure_dense_order {sp de : List ScoredResult} {k : Nat} {res : List FusedResult}
    (hspNd : (resultIds sp).Nodup) (hdeNd : (resultIds de).Nodup)
    (hstrict : de.Pairwise (fun a b => b.score < a.score))
    (hk : (candidateIds sp de).length ≤ k)
    (h : merge sp de 0 1 k = .ok res) :
    (res.map FusedResult.chunkId).filter (fun c => decide (c ∈ resultIds de)) = resultIds de := by
  obtain ⟨-, rfl⟩ := merge_ok_inv h
  rw [mergeIds_take_all hk, List.map_map]
  have hid : (FusedResult.chunkId ∘ fun cid =>
      (⟨cid, fusedOf sp de 0 1 cid, normScoreOf (minMaxNormalize sp) cid,
        normScoreOf (minMaxNormalize de) cid⟩ : FusedResult)) = id := rfl
  rw [hid, List.map_id]
  have hsorted : List.Sorted (precedes sp de 0 1) (mergeIds sp de 0 1) :=
    List.sorted_insertionSort _ _
  have hfsorted : List.Sorted (precedes sp de 0 1)
      ((mergeIds sp de 0 1).filter (fun c => decide (c ∈ resultIds de))) :=
    List.Pairwise.sublist (List.filter_sublist _) hsorted
  have hperm : ((mergeIds sp de 0 1).filter (fun c => decide (c ∈ resultIds de))).Perm
      ((candidateIds sp de).filter (fun c => decide (c ∈ resultIds de))) :=
    (List.perm_insertionSort _ _).filter _
  have hperm2 := hperm.trans (filter_candidates_dense hspNd hdeNd)
  exact List.eq_of_perm_of_sorted hperm2 hfsorted (pairwise_precedes_dense sp hdeNd hstrict)

lemma orderedInsert_congr {α : Type} {r1 r2 : α → α → Prop}
    [DecidableRel r1] [DecidableRel r2]
    (h : ∀ a b, r1 a b ↔ r2 a b) (x : α) (l : List α) :
    List.orderedInsert r1 x l = List.orderedInsert r2 x l := by
  induction l with
  | nil => rfl
  | cons y ys ih =>
    simp only [List.orderedInsert]
    rw [ih]
    exact if_congr (h x y) rfl rfl

lemma insertionSort_congr {α : Type} {r1 r2 : α → α → Prop}
    [DecidableRel r1] [DecidableRel r2]
    (h : ∀ a b, r1 a b ↔ r2 a b) (l : List α) :
    List.insertionSort r1 l = List.insertionSort r2 l := by
  induction l with
  | nil => rfl
  | cons y ys ih =>
    simp only [List.insertionSort]
    rw [ih]
    exact orderedInsert_congr h y _

lemma fusedOf_smul {c : ℚ} (hc : c ≠ 0) (sp de : List ScoredResult) (w1 w2 : ℚ) (cid : Nat) :
    fusedOf sp de (c * w1) (c * w2) cid = fusedOf sp de w1 w2 cid := by
  unfold fusedOf
  have h : c * w1 + c * w2 = c * (w1 + w2) := by ring
  rw [h, mul_div_mul_left _ _ hc, mul_div_mul_left _ _ hc]

lemma precedes_smul {c : ℚ} (hc : c ≠ 0) (sp de : List ScoredResult) (w1 w2 : ℚ) (a b : Nat) :
    precedes sp de (c * w1) (c * w2) a b ↔ precedes sp de w1 w2 a b := by
  unfold precedes
  simp only [fusedOf_smul hc]

lemma merge_smul {c : ℚ} (hc : 0 < c) (sp de : List ScoredResult) (w1 w2 : ℚ) (k : Nat) :
    merge sp de (c * w1) (c * w2) k = merge sp de w1 w2 k := by
  unfold merge
  have h1 : ∀ w : ℚ, (c * w < 0 ↔ w < 0) := by
    intro w
    constructor
    · intro h
      by_contra h2
      push_neg at h2
      nlinarith
    · intro h
      exact mul_neg_of_pos_of_neg hc h
  have hz : ∀ w : ℚ, (c * w = 0 ↔ w = 0) := by
    intro w
    constructor
    · intro h
      rcases mul_eq_zero.mp h with h2 | h2
      · exact absurd h2 hc.ne'
      · exact h2
    · intro h
      rw [h, mul_zero]
  have hcond : (c * w1 < 0 ∨ c * w2 < 0 ∨ (c * w1 = 0 ∧ c * w2 = 0)) ↔
      (w1 < 0 ∨ w2 < 0 ∨ (w1 = 0 ∧ w2 = 0)) := by
    rw [h1 w1, h1 w2, hz w1, hz w2]
  have hids : mergeIds sp de (c * w1) (c * w2) = mergeIds sp de w1 w2 := by
    unfold mergeIds
    exact insertionSort_congr (precedes_smul hc.ne' sp de w1 w2) _
  refine if_congr hcond rfl ?_
  rw [hids]
  have hfun : (fun cid => (⟨cid, fusedOf sp de (c * w1) (c * w2) cid,
      normScoreOf (minMaxNormalize sp) cid,
      normScoreOf (minMaxNormalize de) cid⟩ : FusedResult)) =
      (fun cid => ⟨cid, fusedOf sp de w1 w2 cid,
        normScoreOf (minMaxNormalize sp) cid,
        normScoreOf (minMaxNormalize de) cid⟩) := by
    funext cid
    rw [fusedOf_smul hc.ne']
  rw [hfun]

end Fusion

namespace Engine

lemma searchIndex_mem_cands {st : EngineState} {f : Chunk → ℚ} {cs : List Nat} {k : Nat}
    {r : Fusion.ScoredResult} (hr : r ∈ searchIndex st f (some cs) k) : r.chunkId ∈ cs := by
  unfold searchIndex at hr
  simp only at hr
  have hr2 := (List.perm_insertionSort resultOrder _).subset ((List.take_sublist _ _).subset hr)
  obtain ⟨c, hc, rfl⟩ := List.mem_map.mp hr2
  rw [List.mem_filter] at hc
  exact of_decide_eq_true hc.2

lemma searchIndex_mem_chunks {st : EngineState} {f : Chunk → ℚ} {cands : Option (List Nat)}
    {k : Nat} {r : Fusion.ScoredResult} (hr : r ∈ searchIndex st f cands k) :
    r.chunkId ∈ st.chunks.map Chunk.id := by
  unfold searchIndex at hr
  cases cands with
  | none =>
    simp only at hr
    have hr2 := (List.perm_insertionSort resultOrder _).subset ((List.take_sublist _ _).subset hr)
    obtain ⟨c, hc, rfl⟩ := List.mem_map.mp hr2
    exact List.mem_map_of_mem Chunk.id hc
  | some cs =>
    simp only at hr
    have hr2 := (List.perm_insertionSort resultOrder _).subset ((List.take_sublist _ _).subset hr)
    obtain ⟨c, hc, rfl⟩ := List.mem_map.mp hr2
    rw [List.mem_filter] at hc
    exact List.mem_map_of_mem Chunk.id hc.1

lemma query_ok_inv {st : EngineState} {f g : Chunk → ℚ} {req : QueryRequest}
    {resp : QueryResponse} {tr : List IndexAccess}
    (h : query st f g req = (.ok resp, tr)) :
    ∃ opts cands,
      mkQueryOptions req = .ok opts ∧
      resolveCandidates st opts = .ok cands ∧
      Fusion.merge (searchIndex st f cands opts.topK) (searchIndex st g cands opts.topK)
        opts.bm25Weight opts.embeddingWeight opts.topK = .ok resp.results ∧
      resp.citations = mkCitations st resp.results ∧
      tr = [.sparse, .dense] := by
  obtain ⟨results, citations⟩ := resp
  unfold query at h
  cases hmk : mkQueryOptions req with
  | error e => rw [hmk] at h; simp at h
  | ok opts =>
    rw [hmk] at h
    dsimp only at h
    cases hrc : resolveCandidates st opts with
    | error e => rw [hrc] at h; simp at h
    | ok cands =>
      rw [hrc] at h
      dsimp only at h
      cases hm : Fusion.merge (searchIndex st f cands opts.topK)
          (searchIndex st g cands opts.topK) opts.bm25Weight opts.embeddingWeight opts.topK with
      | error e => rw [hm] at h; simp at h
      | ok fused =>
        rw [hm] at h
        dsimp only at h
        simp only [Prod.mk.injEq, Except.ok.injEq, QueryResponse.mk.injEq] at h
        obtain ⟨⟨h1, h2⟩, h3⟩ := h
        subst h1
        exact ⟨opts, cands, rfl, hrc, hm, h2.symm, h3.symm⟩

lemma mkQueryOptions_ok_inv {req : QueryRequest} {opts : QueryOptions}
    (h : mkQueryOptions req = .ok opts) :
    opts.topK = req.topK ∧ opts.bm25Weight = req.bm25Weight ∧
    opts.embeddingWeight = req.embeddingWeight ∧ opts.searchScope = req.searchScope ∧
    opts.sessionId = req.sessionId ∧
    0 ≤ req.bm25Weight ∧ 0 ≤ req.embeddingWeight ∧
    ¬(req.bm25Weight = 0 ∧ req.embeddingWeight = 0) ∧
    ¬(req.searchScope = SearchScope.session ∧ req.sessionId = none) := by
  unfold mkQueryOptions at h
  by_cases h1 : req.searchScope = SearchScope.session ∧ req.sessionId = none
  · rw [if_pos h1] at h
    exact Except.noConfusion h
  · rw [if_neg h1] at h
    by_cases h2 : (req.bm25Weight < 0 ∨ req.embeddingWeight < 0 ∨
        (req.bm25Weight = 0 ∧ req.embeddingWeight = 0))
    · rw [if_pos h2] at h
      exact Except.noConfusion h
    · rw [if_neg h2] at h
      have h3 := Except.ok.inj h
      subst h3
      refine ⟨rfl, rfl, rfl, rfl, rfl, ?_, ?_, ?_, h1⟩
      · exact not_lt.mp (fun hl => h2 (Or.inl hl))
      · exact not_lt.mp (fun hl => h2 (Or.inr (Or.inl hl)))
      · exact fun hl => h2 (Or.inr (Or.inr hl))

lemma resolveCandidates_session {st : EngineState} {opts : QueryOptions} {sid : String}
    (hsc : opts.searchScope = SearchScope.session) (hsid : opts.sessionId = some sid)
    {cands : Option (List Nat)} (h : resolveCandidates st opts = .ok cands) :
    ∃ cs, chunkIdsFor st sid = some cs ∧ cands = some cs := by
  unfold resolveCandidates at h
  rw [hsc] at h
  simp only [hsid] at h
  cases hci : chunkIdsFor st sid with
  | none => rw [hci] at h; simp at h
  | some cs =>
    rw [hci] at h
    simp only [Except.ok.injEq] at h
    exact ⟨cs, rfl, h.symm⟩

lemma findChunk_isSome {st : EngineState} {cid : Nat} (h : cid ∈ st.chunks.map Chunk.id) :
    ∃ c, findChunk st cid = some c := by
  obtain ⟨c, hc, rfl⟩ := List.mem_map.mp h
  unfold findChunk
  cases hf : st.chunks.find? (fun d => d.id == c.id) with
  | some d => exact ⟨d, rfl⟩
  | none =>
    exfalso
    have h2 := List.find?_eq_none.mp hf c hc
    simp at h2

lemma mkCitations_forall₂ {st : EngineState} {rs : List Fusion.FusedResult}
    (hall : ∀ r ∈ rs, ∃ c, findChunk st r.chunkId = some c) :
    List.Forall₂ (fun (r : Fusion.FusedResult) (ct : Citation) =>
      ∃ c, findChunk st r.chunkId = some c ∧
        ct.source_file = c.sourceFile ∧ ct.page_number = c.pageNumber ∧
        ct.chunk_text = c.text ∧ ct.relevance_score = r.fused) rs (mkCitations st rs) := by
  induction rs with
  | nil => exact List.Forall₂.nil
  | cons r rs ih =>
    obtain ⟨c, hc⟩ := hall r (List.mem_cons_self r rs)
    unfold mkCitations
    rw [List.filterMap_cons, hc]
    simp only [Option.map_some']
    exact List.Forall₂.cons ⟨c, hc, rfl, rfl, rfl, rfl⟩
      (ih (fun x hx => hall x (List.mem_cons_of_mem _ hx)))

end Engine

end ResearchRag

namespace ResearchRag

/-- C4: For every chunking configuration with `0 ≤ overlap < size` and every
tokenized input, `split` slides a window of `size` tokens advancing by
`size − overlap` (chunk `i` is `tokens[i·step : i·step+size]`), never emits an
empty chunk (the final shorter remainder is kept, an empty remainder is
discarded), concatenating the non-overlapping portions of successive chunks
reconstructs the original token sequence exactly, and empty input yields zero
chunks. -/
theorem chunker_split_window_reconstruction (size overlap : Nat) (hov : overlap < size) :
    (Chunker.split size overlap ([] : List Nat) = [])
    ∧ (∀ ts : List Nat, Chunker.reassemble overlap (Chunker.split size overlap ts) = ts)
    ∧ (∀ (ts : List Nat) (i : Nat), i < (Chunker.split size overlap ts).length →
        (Chunker.split size overlap ts)[i]? =
          some ((ts.drop (i * (size - overlap))).take size))
    ∧ (∀ (ts : List Nat), ∀ c ∈ Chunker.split size overlap ts, c ≠ []) := by
  refine ⟨by simp [Chunker.split], fun ts => Chunker.reassemble_split hov ts, ?_, ?_⟩
  · intro ts i hi
    exact Chunker.split_get_window hov ts.length ts le_rfl i hi
  · intro ts c hc
    exact Chunker.split_chunk_ne_nil hov ts.length ts le_rfl c hc

/-- Witness for C4 at the concrete configuration `size = 3`, `overlap = 1`
and token list `[10, 11, 12, 13, 14]`. -/
theorem chunker_split_window_reconstruction_witness :
    Chunker.reassemble 1 (Chunker.split 3 1 [10, 11, 12, 13, 14]) = [10, 11, 12, 13, 14] :=
  (chunker_split_window_reconstruction 3 1 (by norm_num)).2.1 [10, 11, 12, 13, 14]

/-- C1: for every query the retrieval engine answers, every fused score in the
returned RetrievalResult lies in [0,1] and the result list is sorted in
non-increasing order of fused score; consequently the relevance score of every
Citation handed to the frontend is in [0,1]. -/
theorem query_scores_normalized_and_sorted
    (st : Engine.EngineState) (f g : Engine.Chunk → ℚ) (req : Engine.QueryRequest)
    (resp : Engine.QueryResponse) (tr : List Engine.IndexAccess)
    (h : Engine.query st f g req = (.ok resp, tr)) :
    (∀ r ∈ resp.results, 0 ≤ r.fused ∧ r.fused ≤ 1)
    ∧ resp.results.Pairwise (fun a b => b.fused ≤ a.fused)
    ∧ (∀ ct ∈ resp.citations, 0 ≤ ct.relevance_score ∧ ct.relevance_score ≤ 1) := by
  obtain ⟨opts, cands, hmk, hrc, hm, hcit, htr⟩ := Engine.query_ok_inv h
  refine ⟨fun r hr => Fusion.merge_ok_bounds hm hr, Fusion.merge_ok_sorted hm, ?_⟩
  intro ct hct
  rw [hcit] at hct
  unfold Engine.mkCitations at hct
  obtain ⟨r, hr, hmap⟩ := List.mem_filterMap.mp hct
  cases hfc : Engine.findChunk st r.chunkId with
  | none => rw [hfc] at hmap; simp at hmap
  | some c =>
    rw [hfc] at hmap
    simp only [Option.map_some', Option.some.injEq] at hmap
    rw [← hmap]
    exact Fusion.merge_ok_bounds hm hr

/-- Witness for C1: a concrete one-chunk corpus and a successful global query
whose single result is sorted. -/
theorem query_scores_normalized_and_sorted_witness :
    ([⟨1, 1, 1, 1⟩] : List Fusion.FusedResult).Pairwise (fun a b => b.fused ≤ a.fused) :=
  (query_scores_normalized_and_sorted
    ⟨[⟨1, 1, "a.pdf", 2, "hello"⟩], [⟨1, "a.pdf", 3⟩], [("s1", [1])]⟩
    (fun _ => 1) (fun _ => 1) ⟨5, 1, 1, .global, none⟩
    ⟨[⟨1, 1, 1, 1⟩], [⟨"a.pdf", 2, "hello", 1⟩]⟩ [.sparse, .dense]
    (by norm_num +decide [Engine.query, Engine.mkQueryOptions, Engine.resolveCandidates,
      Engine.searchIndex, Engine.mkCitations, Engine.findChunk, Engine.resultOrder,
      Fusion.merge, Fusion.mergeIds, Fusion.candidateIds, Fusion.resultIds, Fusion.fusedOf,
      Fusion.normScoreOf, Fusion.minMaxNormalize, Fusion.normVal, Fusion.listMin,
      Fusion.listMax, List.insertionSort, List.orderedInsert, List.filterMap,
      List.find?])).2.1

/-- C2: session isolation — for a session whose registered chunk-id set is
`cs`, a session-scoped query for that session returns only chunk ids that are
members of `cs`, for any corpus state. -/
theorem query_session_isolation
    (st : Engine.EngineState) (f g : Engine.Chunk → ℚ) (req : Engine.QueryRequest)
    (resp : Engine.QueryResponse) (tr : List Engine.IndexAccess)
    (sid : String) (cs : List Nat)
    (hscope : req.searchScope = Engine.SearchScope.session)
    (hsid : req.sessionId = some sid)
    (hreg : Engine.chunkIdsFor st sid = some cs)
    (h : Engine.query st f g req = (.ok resp, tr)) :
    ∀ r ∈ resp.results, r.chunkId ∈ cs := by
  obtain ⟨opts, cands, hmk, hrc, hm, -, -⟩ := Engine.query_ok_inv h
  obtain ⟨-, -, -, hsc, hsido, -, -, -, -⟩ := Engine.mkQueryOptions_ok_inv hmk
  obtain ⟨cs2, hci, rfl⟩ := Engine.resolveCandidates_session
    (by rw [hsc, hscope]) (by rw [hsido, hsid]) hrc
  rw [hreg] at hci
  obtain rfl := Option.some.inj hci
  intro r hr
  rcases Fusion.merge_ok_mem_ids hm hr with hmem | hmem <;>
  · unfold Fusion.resultIds at hmem
    obtain ⟨x, hx, hxid⟩ := List.mem_map.mp hmem
    rw [← hxid]
    exact Engine.searchIndex_mem_cands hx

/-- Witness for C2: a concrete session-scoped query over a one-chunk corpus
returns the session's only chunk id. -/
theorem query_session_isolation_witness :
    (⟨1, 1, 1, 1⟩ : Fusion.FusedResult).chunkId ∈ [1] :=
  query_session_isolation
    ⟨[⟨1, 1, "a.pdf", 2, "hello"⟩], [⟨1, "a.pdf", 3⟩], [("s1", [1])]⟩
    (fun _ => 1) (fun _ => 1) ⟨5, 1, 1, .session, some "s1"⟩
    ⟨[⟨1, 1, 1, 1⟩], [⟨"a.pdf", 2, "hello", 1⟩]⟩ [.sparse, .dense]
    "s1" [1] rfl rfl (by decide)
    (by norm_num +decide [Engine.query, Engine.mkQueryOptions, Engine.resolveCandidates,
      Engine.searchIndex, Engine.mkCitations, Engine.findChunk, Engine.resultOrder,
      Engine.chunkIdsFor, List.lookup, Fusion.merge, Fusion.mergeIds, Fusion.candidateIds,
      Fusion.resultIds, Fusion.fusedOf, Fusion.normScoreOf, Fusion.minMaxNormalize,
      Fusion.normVal, Fusion.listMin, Fusion.listMax, List.insertionSort,
      List.orderedInsert, List.filterMap, List.find?, List.filter])
    ⟨1, 1, 1, 1⟩ (by decide)

/-- C3: a query request with searchScope=session and no sessionId is rejected
as `missingSessionId` at query-options construction; the full query path
returns that error having accessed no index, so the request is not silently
treated as a global or empty-scoped search. -/
theorem session_scope_requires_session_id (req : Engine.QueryRequest)
    (hscope : req.searchScope = Engine.SearchScope.session)
    (hsid : req.sessionId = none) :
    Engine.mkQueryOptions req = .error .missingSessionId
    ∧ (∀ (st : Engine.EngineState) (f g : Engine.Chunk → ℚ),
        Engine.query st f g req = (.error .missingSessionId, [])) := by
  have h1 : Engine.mkQueryOptions req = .error .missingSessionId := by
    unfold Engine.mkQueryOptions
    rw [if_pos ⟨hscope, hsid⟩]
  refine ⟨h1, fun st f g => ?_⟩
  unfold Engine.query
  rw [h1]

/-- Witness for C3 at a concrete request with session scope and a null
session id. -/
theorem session_scope_requires_session_id_witness :
    Engine.mkQueryOptions ⟨5, 1, 1, .session, none⟩ = .error .missingSessionId :=
  (session_scope_requires_session_id ⟨5, 1, 1, .session, none⟩ rfl rfl).1

/-- C8: for every answered query the Citation list corresponds 1-1 and in
order with the fused results: the i-th Citation is built from the i-th fused
result's chunk record — source filename, page number, verbatim chunk text —
and carries that result's fused score as `relevance_score`; these are exactly
the fields the frontend Answer component reads as `source_file`,
`page_number`, `chunk_text` and `relevance_score`. -/
theorem citations_follow_fused_rank
    (st : Engine.EngineState) (f g : Engine.Chunk → ℚ) (req : Engine.QueryRequest)
    (resp : Engine.QueryResponse) (tr : List Engine.IndexAccess)
    (h : Engine.query st f g req = (.ok resp, tr)) :
    List.Forall₂ (fun (r : Fusion.FusedResult) (ct : Engine.Citation) =>
      ∃ c, Engine.findChunk st r.chunkId = some c ∧
        ct.source_file = c.sourceFile ∧ ct.page_number = c.pageNumber ∧
        ct.chunk_text = c.text ∧ ct.relevance_score = r.fused)
      resp.results resp.citations := by
  obtain ⟨opts, cands, hmk, hrc, hm, hcit, -⟩ := Engine.query_ok_inv h
  rw [hcit]
  apply Engine.mkCitations_forall₂
  intro r hr
  apply Engine.findChunk_isSome
  rcases Fusion.merge_ok_mem_ids hm hr with hmem | hmem <;>
  · unfold Fusion.resultIds at hmem
    obtain ⟨x, hx, hxid⟩ := List.mem_map.mp hmem
    rw [← hxid]
    exact Engine.searchIndex_mem_chunks hx

/-- Witness for C8: the citation of a concrete successful one-chunk query
carries the chunk's filename, page, text and the fused score. -/
theorem citations_follow_fused_rank_witness :
    List.Forall₂ (fun (r : Fusion.FusedResult) (ct : Engine.Citation) =>
      ∃ c, Engine.findChunk
        ⟨[⟨1, 1, "a.pdf", 2, "hello"⟩], [⟨1, "a.pdf", 3⟩], [("s1", [1])]⟩ r.chunkId = some c ∧
        ct.source_file = c.sourceFile ∧ ct.page_number = c.pageNumber ∧
        ct.chunk_text = c.text ∧ ct.relevance_score = r.fused)
      [⟨1, 1, 1, 1⟩] [⟨"a.pdf", 2, "hello", 1⟩] :=
  citations_follow_fused_rank
    ⟨[⟨1, 1, "a.pdf", 2, "hello"⟩], [⟨1, "a.pdf", 3⟩], [("s1", [1])]⟩
    (fun _ => 1) (fun _ => 1) ⟨5, 1, 1, .global, none⟩
    ⟨[⟨1, 1, 1, 1⟩], [⟨"a.pdf", 2, "hello", 1⟩]⟩ [.sparse, .dense]
    (by norm_num +decide [Engine.query, Engine.mkQueryOptions, Engine.resolveCandidates,
      Engine.searchIndex, Engine.mkCitations, Engine.findChunk, Engine.resultOrder,
      Fusion.merge, Fusion.mergeIds, Fusion.candidateIds, Fusion.resultIds, Fusion.fusedOf,
      Fusion.normScoreOf, Fusion.minMaxNormalize, Fusion.normVal, Fusion.listMin,
      Fusion.listMax, List.insertionSort, List.orderedInsert, List.filterMap,
      List.find?])

/-- C5 counterexample: with `bm25Weight=1, embeddingWeight=0`, a chunk present
only in the dense results (chunk 1 here) still appears in the merged output
with fused score 0 (a missing side contributes 0, it is not dropped), so the
merged ranking is `[0, 1]` and not the SparseIndex ranking `[0]`: merge does
not return exactly the sparse ranking. -/
theorem fusion_pure_sparse_not_exact_cex :
    (Fusion.merge [⟨0, 5⟩] [⟨1, 9/10⟩] 1 0 2).map (List.map Fusion.FusedResult.chunkId)
      ≠ Except.ok (Fusion.resultIds [⟨0, 5⟩]) := by
  have h : (Fusion.merge [⟨0, 5⟩] [⟨1, 9/10⟩] 1 0 2).map (List.map Fusion.FusedResult.chunkId)
      = Except.ok [0, 1] := by
    norm_num +decide [Fusion.merge, Fusion.mergeIds, Fusion.candidateIds, Fusion.resultIds,
      Fusion.fusedOf, Fusion.normScoreOf, Fusion.minMaxNormalize, Fusion.normVal,
      Fusion.listMin, Fusion.listMax, Fusion.precedes, Fusion.bestRank, Fusion.rankIn,
      List.insertionSort, List.orderedInsert, List.findIdx?, List.find?, Except.map]
  rw [h]
  intro hc
  exact absurd (Except.ok.inj hc) (by decide)

/-- C5 (amended): merge with `(bm25Weight, embeddingWeight) = (1, 0)` preserves
the SparseIndex ranking among the sparse-side chunks — restricting the merged
list to sparse chunk ids yields exactly the sparse id ranking — but chunks
appearing only in the dense results are interleaved with fused score 0 rather
than dropped, so the merged list is not literally the sparse ranking; the
symmetric statement holds for `(0, 1)`.  Exact order preservation assumes the
side's raw scores are strictly decreasing (min-max normalization collapses
ties, after which the §4.5 tie-breaks decide), each side's chunk ids are
distinct, and `k` is at least the candidate count (truncation drops tail
chunks). -/
theorem fusion_pure_weights_preserve_side_order
    (sp de : List Fusion.ScoredResult) (k : Nat)
    (hspNd : (Fusion.resultIds sp).Nodup) (hdeNd : (Fusion.resultIds de).Nodup)
    (hspStrict : sp.Pairwise (fun a b => b.score < a.score))
    (hdeStrict : de.Pairwise (fun a b => b.score < a.score))
    (hk : (Fusion.candidateIds sp de).length ≤ k) :
    (∀ res, Fusion.merge sp de 1 0 k = .ok res →
      (res.map Fusion.FusedResult.chunkId).filter (fun c => decide (c ∈ Fusion.resultIds sp))
        = Fusion.resultIds sp)
    ∧ (∀ res, Fusion.merge sp de 0 1 k = .ok res →
      (res.map Fusion.FusedResult.chunkId).filter (fun c => decide (c ∈ Fusion.resultIds de))
        = Fusion.resultIds de) :=
  ⟨fun _ h => Fusion.merge_pure_sparse_order hspNd hspStrict hk h,
   fun _ h => Fusion.merge_pure_dense_order hspNd hdeNd hdeStrict hk h⟩

/-- Witness for the amended C5 at concrete result lists: sparse ranks chunks
`[0, 1]`, dense ranks `[1, 2]`; the merged ranking with weights (1,0) is
`[0, 1, 2]`, whose restriction to sparse ids is exactly `[0, 1]`. -/
theorem fusion_pure_weights_preserve_side_order_witness :
    (([⟨0, 1, 1, 0⟩, ⟨1, 0, 0, 1⟩, ⟨2, 0, 0, 0⟩] : List Fusion.FusedResult).map
        Fusion.FusedResult.chunkId).filter
      (fun c => decide (c ∈ Fusion.resultIds [⟨0, 5⟩, ⟨1, 3⟩]))
      = Fusion.resultIds [⟨0, 5⟩, ⟨1, 3⟩] :=
  (fusion_pure_weights_preserve_side_order [⟨0, 5⟩, ⟨1, 3⟩] [⟨1, 7⟩, ⟨2, 4⟩] 4
    (by decide) (by decide)
    (by norm_num [List.pairwise_cons]) (by norm_num [List.pairwise_cons])
    (by decide)).1
    [⟨0, 1, 1, 0⟩, ⟨1, 0, 0, 1⟩, ⟨2, 0, 0, 0⟩]
    (by norm_num +decide [Fusion.merge, Fusion.mergeIds, Fusion.candidateIds,
      Fusion.resultIds, Fusion.fusedOf, Fusion.normScoreOf, Fusion.minMaxNormalize,
      Fusion.normVal, Fusion.listMin, Fusion.listMax, Fusion.precedes, Fusion.bestRank,
      Fusion.rankIn, List.insertionSort, List.orderedInsert, List.findIdx?, List.find?])

/-- C6: merge accepts any pair of nonnegative weights — the pair need not sum
to 1: scaling both weights by any positive factor leaves the output unchanged,
which is the internal normalization — and fails with `InvalidWeights` exactly
when both weights are 0; on that failure the engine rejects the request at
options construction with no index access, and the corpus state, of which the
query path is a pure function, is unchanged. -/
theorem fusion_merge_weight_validation
    (sp de : List Fusion.ScoredResult) (w1 w2 : ℚ) (k : Nat)
    (hw1 : 0 ≤ w1) (hw2 : 0 ≤ w2) :
    (Fusion.merge sp de w1 w2 k = .error .invalidWeights ↔ (w1 = 0 ∧ w2 = 0))
    ∧ (¬(w1 = 0 ∧ w2 = 0) → ∃ res, Fusion.merge sp de w1 w2 k = .ok res)
    ∧ (∀ c : ℚ, 0 < c →
        Fusion.merge sp de (c * w1) (c * w2) k = Fusion.merge sp de w1 w2 k)
    ∧ (w1 = 0 → w2 = 0 →
        ∀ (st : Engine.EngineState) (f g : Engine.Chunk → ℚ) (tk : Nat)
          (scope : Engine.SearchScope) (sid : Option String),
          ¬(scope = Engine.SearchScope.session ∧ sid = none) →
          Engine.query st f g ⟨tk, w1, w2, scope, sid⟩ = (.error .invalidWeights, [])) := by
  refine ⟨⟨?_, ?_⟩, ?_, fun c hc => Fusion.merge_smul hc sp de w1 w2 k, ?_⟩
  · intro h
    by_cases hc : (w1 < 0 ∨ w2 < 0 ∨ (w1 = 0 ∧ w2 = 0))
    · rcases hc with hc | hc | hc
      · exact absurd hc (not_lt.mpr hw1)
      · exact absurd hc (not_lt.mpr hw2)
      · exact hc
    · rw [Fusion.merge, if_neg hc] at h
      exact Except.noConfusion h
  · intro hboth
    rw [Fusion.merge, if_pos (Or.inr (Or.inr hboth))]
  · intro hboth
    have hc : ¬(w1 < 0 ∨ w2 < 0 ∨ (w1 = 0 ∧ w2 = 0)) := by
      rintro (hl | hl | hl)
      · exact absurd hl (not_lt.mpr hw1)
      · exact absurd hl (not_lt.mpr hw2)
      · exact hboth hl
    exact ⟨_, by rw [Fusion.merge, if_neg hc]⟩
  · intro h01 h02 st f g tk scope sid hvalid
    have hmk : Engine.mkQueryOptions ⟨tk, w1, w2, scope, sid⟩ = .error .invalidWeights := by
      unfold Engine.mkQueryOptions
      rw [if_neg hvalid, if_pos (Or.inr (Or.inr ⟨h01, h02⟩))]
    unfold Engine.query
    rw [hmk]

/-- Witness for C6 at the concrete weight pair (0, 0): merge fails with
`InvalidWeights`. -/
theorem fusion_merge_weight_validation_witness :
    Fusion.merge [] [] (0 : ℚ) 0 5 = .error .invalidWeights :=
  (fusion_merge_weight_validation [] [] 0 0 5 le_rfl le_rfl).1.mpr ⟨rfl, rfl⟩

/-- C7: after a corpus clear on any non-empty corpus, every subsequent
global-scope query (with validated weights) returns the empty result with an
empty citation list, the documents listing reports a count of zero, and the
cleared state is the empty state — the clear is a single state transition, so
in this sequential model no query observes a partially cleared corpus. -/
theorem clear_empties_corpus
    (st : Engine.EngineState) (hne : st.chunks ≠ [])
    (f g : Engine.Chunk → ℚ) (tk : Nat) (w1 w2 : ℚ)
    (hw1 : 0 ≤ w1) (hw2 : 0 ≤ w2) (hboth : ¬(w1 = 0 ∧ w2 = 0)) :
    Engine.query (Engine.clearAllData st) f g ⟨tk, w1, w2, .global, none⟩
      = (.ok ⟨[], []⟩, [.sparse, .dense])
    ∧ Engine.documentsCount (Engine.clearAllData st) = 0
    ∧ Engine.clearAllData st = Engine.emptyState := by
  have hcond : ¬(w1 < 0 ∨ w2 < 0 ∨ (w1 = 0 ∧ w2 = 0)) := by
    rintro (hl | hl | hl)
    · exact absurd hl (not_lt.mpr hw1)
    · exact absurd hl (not_lt.mpr hw2)
    · exact hboth hl
  have hmk : Engine.mkQueryOptions ⟨tk, w1, w2, .global, none⟩
      = .ok ⟨tk, w1, w2, .global, none⟩ := by
    unfold Engine.mkQueryOptions
    rw [if_neg (by simp), if_neg hcond]
  have hmerge : Fusion.merge [] [] w1 w2 tk = .ok [] := by
    rw [Fusion.merge, if_neg hcond]
    rw [show Fusion.mergeIds ([] : List Fusion.ScoredResult) [] w1 w2 = [] from rfl]
    rw [List.take_nil, List.map_nil]
  refine ⟨?_, rfl, rfl⟩
  show Engine.query Engine.emptyState f g ⟨tk, w1, w2, .global, none⟩ = _
  unfold Engine.query
  rw [hmk]
  dsimp only
  have hrc : Engine.resolveCandidates Engine.emptyState ⟨tk, w1, w2, .global, none⟩
      = .ok none := rfl
  rw [hrc]
  dsimp only
  have hsearch : ∀ h : Engine.Chunk → ℚ, Engine.searchIndex Engine.emptyState h none tk = [] := by
    intro h
    unfold Engine.searchIndex
    exact List.take_nil
  rw [hsearch f, hsearch g, hmerge]
  rfl

/-- Witness for C7: clearing a concrete one-chunk, one-document corpus leaves
a global query with weights (1, 1) returning the empty response. -/
theorem clear_empties_corpus_witness :
    Engine.query (Engine.clearAllData ⟨[⟨1, 1, "a.pdf", 1, "x"⟩], [⟨1, "a.pdf", 1⟩], []⟩)
      (fun _ => 0) (fun _ => 0) ⟨3, 1, 1, .global, none⟩
      = (.ok ⟨[], []⟩, [.sparse, .dense]) :=
  (clear_empties_corpus ⟨[⟨1, 1, "a.pdf", 1, "x"⟩], [⟨1, "a.pdf", 1⟩], []⟩ (by decide)
    (fun _ => 0) (fun _ => 0) 3 1 1 (by norm_num) (by norm_num) (by norm_num)).1

/-- C9: for every selection or drop event in the Upload component, the stored
file list — which is exactly what a subsequent upload submits to /upload — is
exactly the subset of the chosen files whose MIME type is
`application/pdf`; when anything was filtered out the transient status
message is set, and a file of any other type never appears in the upload
request. -/
theorem upload_submits_exactly_pdfs (selected : List Frontend.FileItem)
    (st : Frontend.UploadState) :
    ((Frontend.handleFileSelect selected st).files = selected.filter Frontend.isPdf)
    ∧ ((Frontend.handleDrop selected st).files = selected.filter Frontend.isPdf)
    ∧ ((selected.filter Frontend.isPdf).length ≠ selected.length →
        (Frontend.handleFileSelect selected st).uploadStatus = "Only PDF files are allowed")
    ∧ (∀ req st2,
        Frontend.handleUpload (Frontend.handleFileSelect selected st) = (some req, st2) →
        req = selected.filter Frontend.isPdf)
    ∧ (∀ f ∈ selected, Frontend.isPdf f = false → f ∉ selected.filter Frontend.isPdf) := by
  refine ⟨rfl, rfl, ?_, ?_, ?_⟩
  · intro hne
    unfold Frontend.handleFileSelect
    dsimp only
    rw [if_pos hne]
  · intro req st2 hup
    unfold Frontend.handleUpload at hup
    by_cases hemp : (Frontend.handleFileSelect selected st).files.isEmpty
    · rw [if_pos hemp] at hup
      simp at hup
    · rw [if_neg hemp] at hup
      simp only [Prod.mk.injEq, Option.some.injEq] at hup
      exact hup.1.symm
  · intro f hf hnp hmem
    rw [List.mem_filter] at hmem
    rw [hnp] at hmem
    exact Bool.noConfusion hmem.2

/-- Witness for C9: selecting one PDF and one plain-text file stores only the
PDF and sets the warning status. -/
theorem upload_submits_exactly_pdfs_witness :
    (Frontend.handleFileSelect [⟨"a.pdf", "application/pdf"⟩, ⟨"b.txt", "text/plain"⟩]
      ⟨[], ""⟩).uploadStatus = "Only PDF files are allowed" :=
  (upload_submits_exactly_pdfs [⟨"a.pdf", "application/pdf"⟩, ⟨"b.txt", "text/plain"⟩]
    ⟨[], ""⟩).2.2.1 (by decide)

/-- C10: the ChatBox submit handler issues a POST /ask request exactly when the
trimmed question is non-empty and documents have been uploaded; in every other
case it sets a local error message and sends no request, leaving the
app-level chat history and current answer unchanged.  The issued request
carries the trimmed question, `top_k = 5`, weights 0.5/0.5 and session scope;
the variant ChatBox without session scoping obeys the same guards. -/
theorem chat_submit_guards (st : Frontend.ChatBoxState) (app : Frontend.AppState)
    (hasDocs : Bool) (sess : Option Frontend.SessionInfo) :
    ((Frontend.handleSubmit st app hasDocs sess).2.2 ≠ none ↔
      (Frontend.trim st.question ≠ "" ∧ hasDocs = true))
    ∧ (Frontend.trim st.question = "" →
        Frontend.handleSubmit st app hasDocs sess =
          (⟨st.question, "Please enter a question"⟩, app, none))
    ∧ (Frontend.trim st.question ≠ "" → hasDocs = false →
        Frontend.handleSubmit st app hasDocs sess =
          (⟨st.question, "Please upload some PDF documents first"⟩, app, none))
    ∧ ((Frontend.handleSubmit st app hasDocs sess).2.2 = none →
        (Frontend.handleSubmit st app hasDocs sess).1.error ≠ ""
          ∧ (Frontend.handleSubmit st app hasDocs sess).2.1 = app)
    ∧ (∀ req, (Frontend.handleSubmit st app hasDocs sess).2.2 = some req →
        req.question = Frontend.trim st.question ∧ req.top_k = 5 ∧
        req.bm25_weight = 1/2 ∧ req.embedding_weight = 1/2 ∧
        req.search_scope = "session")
    ∧ ((Frontend.handleSubmitGlobal st app hasDocs).2.2 ≠ none ↔
        (Frontend.trim st.question ≠ "" ∧ hasDocs = true))
    ∧ ((Frontend.handleSubmitGlobal st app hasDocs).2.2 = none →
        (Frontend.handleSubmitGlobal st app hasDocs).1.error ≠ ""
          ∧ (Frontend.handleSubmitGlobal st app hasDocs).2.1 = app) := by
  by_cases hq : Frontend.trim st.question = ""
  · refine ⟨?_, ?_, ?_, ?_, ?_, ?_, ?_⟩ <;>
      simp [Frontend.handleSubmit, Frontend.handleSubmitGlobal, hq]
  · cases hasDocs with
    | false =>
      refine ⟨?_, ?_, ?_, ?_, ?_, ?_, ?_⟩ <;>
        simp [Frontend.handleSubmit, Frontend.handleSubmitGlobal, hq]
    | true =>
      refine ⟨?_, ?_, ?_, ?_, ?_, ?_, ?_⟩ <;>
        simp [Frontend.handleSubmit, Frontend.handleSubmitGlobal, hq]

/-- Witness for C10: submitting a whitespace-only question sets the
"Please enter a question" error and issues no request. -/
theorem chat_submit_guards_witness :
    Frontend.handleSubmit ⟨" ", ""⟩ ⟨[], none⟩ true none =
      (⟨" ", "Please enter a question"⟩, ⟨[], none⟩, none) :=
  (chat_submit_guards ⟨" ", ""⟩ ⟨[], none⟩ true none).2.1 (by decide)

end ResearchRag
